import Mathlib

/-!
Shallow embedding of the request-batching and polling engine of
`sat_descarga_demo.py` (class `SATDescargaDemo`): the period splitter
`dividir_periodos`, the submission loop and polling loop of
`ejecutar_descarga`, and the package downloader `descargar_paquetes`.

Dates are modelled as day numbers (`Nat`).  The remote service is an
explicit oracle parameter (one response per request/package), the
filesystem is a list of written files carried in the state, and console
output is modelled as an append-only log.  Network calls made by the
engine are recorded in the state so that claims about "no network call"
and "never retried" can be stated.
-/

namespace SatDescarga

/-- The `self.stats` dictionary of `SATDescargaDemo.__init__`. -/
structure Stats where
  solicitudes_enviadas : Nat
  paquetes_descargados : Nat
  xmls_extraidos : Nat
  errores : Nat
deriving DecidableEq

/-- One pending request record, as appended to `solicitudes`
(`{'id': rid, 'inicio': inicio, 'fin': fin, 'status': 1}`). -/
structure Sol where
  id : String
  inicio : Nat
  fin : Nat
  status : Nat
deriving DecidableEq

/-- Terminal classification of a request, as printed by the polling loop:
ready with packages (estado 3, non-empty `paquetes`), empty (estado 3,
no packages), or rejected (estado 4 or 5). -/
inductive Outcome
  | ready (paquetes : List String)
  | vacia
  | rejected (estado : Int)
deriving DecidableEq

/-- Result of `verifier.verificar_descarga`: either a response carrying
`estado_solicitud` (already passed through `int(..., -1)`) and the
`paquetes` list (`response.get('paquetes') or []`), or a raised
exception (network error, malformed response). -/
inductive VerifyResponse
  | ok (estado : Int) (paquetes : List String)
  | exn (msg : String)
deriving DecidableEq

/-- Result of `downloader.descargar_paquete`: a response with
`paquete_b64` (decoded bytes, plus the XML count the zip introspection
would yield — `none` when `zipfile.ZipFile` raises), a response without
`paquete_b64` (carrying `cod_estatus` and `mensaje`), or a raised
exception. -/
inductive FetchResponse
  | ok (data : List Nat) (xmls : Option Nat)
  | sinDatos (cod : String) (msg : String)
  | exn (msg : String)
deriving DecidableEq

/-- Result of `service.solicitar_descarga`: a response carrying
`cod_estatus`, `mensaje` and optional `id_solicitud`, or a raised
exception. -/
inductive SubmitResponse
  | ok (cod : String) (msg : String) (rid : Option String)
  | exn (msg : String)
deriving DecidableEq

/-- The observable state threaded through the engine: written files
(`<packageId>.zip` ↦ bytes), the statistics counters, the package and
verification network calls issued so far, the terminal outcomes recorded
by the polling loop, and the console log. -/
structure EngineState where
  fs : List (String × List Nat)
  stats : Stats
  netCalls : List String
  verifCalls : List String
  outcomes : List (String × Outcome)
  log : List String
deriving DecidableEq

/-- Fresh state: empty output directory, zeroed statistics. -/
def EngineState.init : EngineState := ⟨[], ⟨0, 0, 0, 0⟩, [], [], [], []⟩

/-- Fuel-indexed body of the `while actual <= fin` loop of
`dividir_periodos`.  The fuel only bounds the iteration count; with
`dias ≥ 1` the fuel chosen in `dividir_periodos` is never exhausted. -/
def dividir_aux (dias fin : Nat) : Nat → Nat → List (Nat × Nat)
  | 0, _ => []
  | fuel + 1, actual =>
    if actual ≤ fin then
      (actual, min (actual + dias - 1) fin) ::
        dividir_aux dias fin fuel (min (actual + dias - 1) fin + 1)
    else []

/-- `SATDescargaDemo.dividir_periodos`: split `[inicio, fin]` into
sub-ranges of at most `dias` days (inclusive bounds), clamping the last
one to `fin`. -/
def dividir_periodos (inicio fin : Nat) (dias : Nat := 7) : List (Nat × Nat) :=
  dividir_aux dias fin (fin + 1 - inicio) inicio

/-- One iteration of the `for pkg_id in paquetes` loop of
`SATDescargaDemo.descargar_paquetes`: skip if the zip already exists
(counting it as downloaded), otherwise call the download service and
write the decoded payload; a response without `paquete_b64` or a raised
exception only logs. -/
def descargar_paquete_step (fenv : String → FetchResponse)
    (st : EngineState) (pkg : String) : EngineState :=
  if pkg ∈ st.fs.map Prod.fst then
    { st with
      stats := { st.stats with paquetes_descargados := st.stats.paquetes_descargados + 1 },
      log := st.log ++ ["Ya existe: " ++ pkg] }
  else
    match fenv pkg with
    | .ok data xmls =>
      match xmls with
      | some n =>
        { st with
          netCalls := st.netCalls ++ [pkg],
          fs := st.fs ++ [(pkg, data)],
          stats := { st.stats with
            paquetes_descargados := st.stats.paquetes_descargados + 1,
            xmls_extraidos := st.stats.xmls_extraidos + n },
          log := st.log ++ ["Guardado: " ++ pkg] ++ ["Contenido: XMLs"] }
      | none =>
        { st with
          netCalls := st.netCalls ++ [pkg],
          fs := st.fs ++ [(pkg, data)],
          stats := { st.stats with
            paquetes_descargados := st.stats.paquetes_descargados + 1 },
          log := st.log ++ ["Guardado: " ++ pkg] }
    | .sinDatos cod msg =>
      { st with
        netCalls := st.netCalls ++ [pkg],
        log := st.log ++ ["Sin datos - cod=" ++ cod ++ " msg=" ++ msg] }
    | .exn m =>
      { st with
        netCalls := st.netCalls ++ [pkg],
        log := st.log ++ ["Error descargando: " ++ m] }

/-- `SATDescargaDemo.descargar_paquetes`: process every package id in
order. -/
def descargar_paquetes (fenv : String → FetchResponse)
    (st : EngineState) (paquetes : List String) : EngineState :=
  paquetes.foldl (descargar_paquete_step fenv) st

/-- One request check inside a polling round (`ejecutar_descarga`,
lines 503–544): issue the verification call and dispatch on
`estado_solicitud`.  Returns the updated state and whether the request
stays in the working set (`nuevos_pendientes`). -/
def procesar_sol (venv : String → VerifyResponse) (fenv : String → FetchResponse)
    (st : EngineState) (sol : Sol) : EngineState × Bool :=
  let st0 : EngineState := { st with verifCalls := st.verifCalls ++ [sol.id] }
  match venv sol.id with
  | .exn m => ({ st0 with log := st0.log ++ ["Error verificando: " ++ m] }, true)
  | .ok estado paquetes =>
    if estado = 1 then
      ({ st0 with log := st0.log ++ ["Estado: Aceptada"] }, true)
    else if estado = 2 then
      ({ st0 with log := st0.log ++ ["Estado: En proceso"] }, true)
    else if estado = 3 then
      if paquetes = [] then
        ({ st0 with
           outcomes := st0.outcomes ++ [(sol.id, Outcome.vacia)],
           log := st0.log ++ ["Sin paquetes"] }, false)
      else
        let st1 := descargar_paquetes fenv
          { st0 with log := st0.log ++ ["Estado: Lista para descarga"] } paquetes
        ({ st1 with outcomes := st1.outcomes ++ [(sol.id, Outcome.ready paquetes)] }, false)
    else if estado = 4 ∨ estado = 5 then
      ({ st0 with
         stats := { st0.stats with errores := st0.stats.errores + 1 },
         outcomes := st0.outcomes ++ [(sol.id, Outcome.rejected estado)],
         log := st0.log ++ ["Estado: Error/Rechazada"] }, false)
    else
      ({ st0 with log := st0.log ++ ["Estado desconocido"] }, true)

/-- One polling round (`for sol in pendientes`): check every pending
request in order; the requests that remain pending are collected (in
their original order) as the next round's working set. -/
def ronda (venv : String → VerifyResponse) (fenv : String → FetchResponse) :
    List Sol → EngineState → List Sol × EngineState
  | [], st => ([], st)
  | sol :: resto, st =>
    let r := procesar_sol venv fenv st sol
    let rest := ronda venv fenv resto r.1
    (if r.2 then sol :: rest.1 else rest.1, rest.2)

/-- `max_intentos = 30` in `ejecutar_descarga`. -/
def max_intentos : Nat := 30

/-- The `while pendientes and intentos < max_intentos` loop of
`ejecutar_descarga`.  `fuel` is `max_intentos - intentos`; `venv` may
depend on the round number; `interrupt n` tells whether the user hits
Ctrl+C during the sleep after round `n` (which breaks the loop).
Returns the final working set, state, and the number of rounds run. -/
def bucle (venv : Nat → String → VerifyResponse) (fenv : String → FetchResponse)
    (interrupt : Nat → Bool) :
    Nat → Nat → List Sol → EngineState → List Sol × EngineState × Nat
  | 0, intentos, pendientes, st => (pendientes, st, intentos)
  | fuel + 1, intentos, pendientes, st =>
    if pendientes = [] then (pendientes, st, intentos)
    else
      let r := ronda (venv (intentos + 1)) fenv pendientes st
      if r.1 ≠ [] ∧ interrupt (intentos + 1) then (r.1, r.2, intentos + 1)
      else bucle venv fenv interrupt fuel (intentos + 1) r.1 r.2

/-- One iteration of the submission loop (`ejecutar_descarga`, lines
438–483): a response with `id_solicitud` appends a pending request and
counts it; a response without one, or a raised exception, counts an
error.  Either way the loop continues with the next sub-range. -/
def enviar_paso (resp : SubmitResponse) (rango : Nat × Nat)
    (acc : List Sol × EngineState) : List Sol × EngineState :=
  match resp with
  | .ok cod msg rid =>
    match rid with
    | some r =>
      (acc.1 ++ [⟨r, rango.1, rango.2, 1⟩],
       { acc.2 with
         stats := { acc.2.stats with
           solicitudes_enviadas := acc.2.stats.solicitudes_enviadas + 1 },
         log := acc.2.log ++ ["ID: " ++ r] })
    | none =>
      (acc.1,
       { acc.2 with
         stats := { acc.2.stats with errores := acc.2.stats.errores + 1 },
         log := acc.2.log ++ ["Sin ID - cod=" ++ cod ++ " msg=" ++ msg] })
  | .exn m =>
    (acc.1,
     { acc.2 with
       stats := { acc.2.stats with errores := acc.2.stats.errores + 1 },
       log := acc.2.log ++ ["Error: " ++ m] })

/-- The submission loop over all sub-ranges; `senv i` is the server's
response to the `i`-th submission. -/
def enviar_solicitudes (senv : Nat → SubmitResponse) :
    Nat → List (Nat × Nat) → List Sol × EngineState → List Sol × EngineState
  | _, [], acc => acc
  | i, r :: rs, acc => enviar_solicitudes senv (i + 1) rs (enviar_paso (senv i) r acc)

/-- `SATDescargaDemo.ejecutar_descarga`: split the period, submit one
request per sub-range, then poll.  Returns the reported result
(`False` only when no submission succeeded), the requests still pending
when the loop exits, the final state, and the number of rounds run. -/
def ejecutar_descarga (senv : Nat → SubmitResponse)
    (venv : Nat → String → VerifyResponse) (fenv : String → FetchResponse)
    (interrupt : Nat → Bool) (fecha_inicio fecha_fin : Nat)
    (st : EngineState) : Bool × List Sol × EngineState × Nat :=
  let rangos := dividir_periodos fecha_inicio fecha_fin 7
  let r0 := enviar_solicitudes senv 0 rangos ([], st)
  if r0.1 = [] then (false, [], r0.2, 0)
  else
    let r := bucle venv fenv interrupt max_intentos 0 r0.1 r0.2
    (true, r.1, r.2.1, r.2.2)

/-- Whether a verification response keeps the request in the working set
(mirrors the branch structure of `procesar_sol`). -/
def keepB : VerifyResponse → Bool
  | .exn _ => true
  | .ok estado _ =>
    if estado = 1 then true
    else if estado = 2 then true
    else if estado = 3 then false
    else if estado = 4 ∨ estado = 5 then false
    else true

/-- The terminal outcomes a verification response makes the round record
(empty for a response that keeps the request pending). -/
def outcomeOf (i : String) : VerifyResponse → List (String × Outcome)
  | .exn _ => []
  | .ok estado paquetes =>
    if estado = 1 then []
    else if estado = 2 then []
    else if estado = 3 then
      [(i, if paquetes = [] then Outcome.vacia else Outcome.ready paquetes)]
    else if estado = 4 ∨ estado = 5 then [(i, Outcome.rejected estado)]
    else []

/-- Whether an outcome is a rejection. -/
def esRechazo : Outcome → Bool
  | .rejected _ => true
  | _ => false

/-- Number of rejection outcomes in a record. -/
def cuentaRechazos (l : List (String × Outcome)) : Nat :=
  (l.filter (fun e => esRechazo e.2)).length

/-- A server that always answers "Aceptada" (estado 1): requests never
resolve. -/
def venvAceptada : Nat → String → VerifyResponse := fun _ _ => .ok 1 []

/-- A download server that always answers without payload data. -/
def fenvSinDatos : String → FetchResponse := fun _ => .sinDatos "5004" "No encontrado"

/-- A submission server that always returns request id `S1`. -/
def senvS1 : Nat → SubmitResponse := fun _ => .ok "5000" "Solicitud Aceptada" (some "S1")

/-- No user interrupt. -/
def sinInterrupcion : Nat → Bool := fun _ => false

/-- A verifier that always answers estado 1, not indexed by round. -/
def venvAcc1 : String → VerifyResponse := fun _ => .ok 1 []

/-- A verifier that always raises (transient network fault). -/
def venvExn : String → VerifyResponse := fun _ => .exn "timeout"

/-- A verifier that always answers estado 4 (rejected). -/
def venvRech4 : String → VerifyResponse := fun _ => .ok 4 []

/-- A download server whose payload is present but whose archive
introspection fails. -/
def fenvOkNone : String → FetchResponse := fun _ => .ok [7] none

/-- A state in which package `A` is already on disk. -/
def stA : EngineState := { EngineState.init with fs := [("A", [7])] }

/-- A pending request used in concrete instantiations. -/
def sol0 : Sol := ⟨"S1", 0, 6, 1⟩

/-- The terminal outcomes one round records for a working set, in
order. -/
def salidasDe (venv : String → VerifyResponse) : List Sol → List (String × Outcome)
  | [] => []
  | s :: l => outcomeOf s.id (venv s.id) ++ salidasDe venv l

/-! ### Period splitter -/

theorem dividir_aux_of_gt (dias fin fuel actual : Nat) (h : fin < actual) :
    dividir_aux dias fin fuel actual = [] := by
  cases fuel with
  | zero => rfl
  | succ n =>
    show (if actual ≤ fin then _ else []) = []
    rw [if_neg (by omega)]

theorem dividir_aux_props (dias fin : Nat) (hd : 1 ≤ dias) :
    ∀ fuel actual, actual ≤ fin → fin + 1 - actual ≤ fuel →
      ((dividir_aux dias fin fuel actual).map Prod.fst).head? = some actual ∧
      (∀ r ∈ dividir_aux dias fin fuel actual,
          actual ≤ r.1 ∧ r.1 ≤ r.2 ∧ r.2 ≤ fin ∧ r.2 + 1 ≤ r.1 + dias) ∧
      List.Chain' (fun a b : Nat × Nat => b.1 = a.2 + 1)
        (dividir_aux dias fin fuel actual) ∧
      (∀ x, (actual ≤ x ∧ x ≤ fin) ↔
          ∃ r ∈ dividir_aux dias fin fuel actual, r.1 ≤ x ∧ x ≤ r.2) := by
  intro fuel
  induction fuel with
  | zero => intro actual h1 h2; omega
  | succ n ih =>
    intro actual h1 h2
    have hm1 : min (actual + dias - 1) fin ≤ actual + dias - 1 := Nat.min_le_left _ _
    have hm2 : min (actual + dias - 1) fin ≤ fin := Nat.min_le_right _ _
    have hm0 : actual ≤ min (actual + dias - 1) fin := Nat.le_min.mpr ⟨by omega, h1⟩
    have hstep : dividir_aux dias fin (n + 1) actual =
        (actual, min (actual + dias - 1) fin) ::
          dividir_aux dias fin n (min (actual + dias - 1) fin + 1) := by
      show (if actual ≤ fin then _ else []) = _
      rw [if_pos h1]
    set m := min (actual + dias - 1) fin with hmdef
    by_cases hfin : fin ≤ m
    · have hmf : m = fin := le_antisymm hm2 hfin
      have htail : dividir_aux dias fin n (m + 1) = [] :=
        dividir_aux_of_gt dias fin n (m + 1) (by omega)
      rw [hstep, htail]
      refine ⟨by simp, ?_, ?_, ?_⟩
      · intro r hr
        simp only [List.mem_singleton] at hr
        subst hr
        exact ⟨le_rfl, hm0, hm2, by omega⟩
      · exact List.chain'_singleton _
      · intro x
        constructor
        · rintro ⟨hax, hxf⟩
          exact ⟨(actual, m), List.mem_singleton.mpr rfl, hax, by omega⟩
        · rintro ⟨r, hr, hrx1, hrx2⟩
          simp only [List.mem_singleton] at hr
          subst hr
          exact ⟨hrx1, by omega⟩
    · have hmlt : m < fin := lt_of_not_le hfin
      obtain ⟨ihead, ibounds, ichain, imem⟩ :=
        ih (m + 1) (by omega) (by omega)
      rw [hstep]
      refine ⟨by simp, ?_, ?_, ?_⟩
      · intro r hr
        rcases List.mem_cons.mp hr with hr | hr
        · subst hr; exact ⟨le_rfl, hm0, hm2, by omega⟩
        · obtain ⟨ha, hb, hc, he⟩ := ibounds r hr
          exact ⟨by omega, hb, hc, he⟩
      · refine List.chain'_cons'.mpr ⟨?_, ichain⟩
        intro b hb
        rw [List.head?_map] at ihead
        rw [hb] at ihead
        have hb1 : some b.1 = some (m + 1) := by simpa using ihead
        exact Option.some.inj hb1
      · intro x
        constructor
        · rintro ⟨hax, hxf⟩
          by_cases hxm : x ≤ m
          · exact ⟨(actual, m), List.mem_cons_self _ _, hax, hxm⟩
          · obtain ⟨r, hr, hrx⟩ := (imem x).mp ⟨by omega, hxf⟩
            exact ⟨r, List.mem_cons_of_mem _ hr, hrx⟩
        · rintro ⟨r, hr, hrx1, hrx2⟩
          rcases List.mem_cons.mp hr with hr | hr
          · subst hr; exact ⟨hrx1, by omega⟩
          · have := (imem x).mpr ⟨r, hr, hrx1, hrx2⟩
            exact ⟨by omega, this.2⟩

/-- C5: for `inicio ≤ fin` and `dias ≥ 1`, `dividir_periodos` returns a
non-empty ascending sequence of contiguous, non-overlapping sub-ranges,
each spanning at most `dias` days (inclusive bounds), whose union is
exactly `[inicio, fin]`; when `inicio = fin` it is the single one-day
range. -/
theorem dividir_periodos_correct (inicio fin dias : Nat)
    (h1 : inicio ≤ fin) (h2 : 1 ≤ dias) :
    dividir_periodos inicio fin dias ≠ [] ∧
    ((dividir_periodos inicio fin dias).map Prod.fst).head? = some inicio ∧
    (∀ r ∈ dividir_periodos inicio fin dias,
        inicio ≤ r.1 ∧ r.1 ≤ r.2 ∧ r.2 ≤ fin ∧ r.2 + 1 ≤ r.1 + dias) ∧
    List.Chain' (fun a b : Nat × Nat => b.1 = a.2 + 1)
      (dividir_periodos inicio fin dias) ∧
    (∀ x, (inicio ≤ x ∧ x ≤ fin) ↔
        ∃ r ∈ dividir_periodos inicio fin dias, r.1 ≤ x ∧ x ≤ r.2) ∧
    (inicio = fin → dividir_periodos inicio fin dias = [(inicio, inicio)]) := by
  obtain ⟨hh, hb, hc, hm⟩ :=
    dividir_aux_props dias fin h2 (fin + 1 - inicio) inicio h1 le_rfl
  refine ⟨?_, hh, hb, hc, hm, ?_⟩
  · intro hnil
    rw [dividir_periodos] at hnil
    rw [hnil] at hh
    simp at hh
  · intro he
    subst he
    rw [dividir_periodos]
    have hf : inicio + 1 - inicio = 1 := by omega
    rw [hf]
    have hmin : min (inicio + dias - 1) inicio = inicio :=
      Nat.min_eq_right (by omega)
    show (if inicio ≤ inicio then _ else []) = _
    rw [if_pos le_rfl, hmin]
    rfl

theorem dividir_periodos_correct_witness :
    dividir_periodos 0 19 7 ≠ [] ∧ dividir_periodos 0 0 7 = [(0, 0)] :=
  ⟨(dividir_periodos_correct 0 19 7 (by decide) (by decide)).1,
   (dividir_periodos_correct 0 0 7 (by decide) (by decide)).2.2.2.2.2 rfl⟩

/-- C10: when `inicio` is strictly after `fin`, `dividir_periodos`
returns the empty list (no sub-range, no failure). -/
theorem dividir_periodos_vacio_de_invertido (inicio fin dias : Nat)
    (h : fin < inicio) : dividir_periodos inicio fin dias = [] := by
  rw [dividir_periodos]
  have h0 : fin + 1 - inicio = 0 := by omega
  rw [h0]
  rfl

theorem dividir_periodos_vacio_witness : dividir_periodos 1 0 7 = [] :=
  dividir_periodos_vacio_de_invertido 1 0 7 (by decide)

/-! ### Package downloader -/

theorem descargar_paquetes_nil (fenv : String → FetchResponse) (st : EngineState) :
    descargar_paquetes fenv st [] = st := rfl

theorem descargar_paquetes_cons (fenv : String → FetchResponse) (st : EngineState)
    (p : String) (ps : List String) :
    descargar_paquetes fenv st (p :: ps) =
      descargar_paquetes fenv (descargar_paquete_step fenv st p) ps := rfl

theorem descargar_step_presente (fenv : String → FetchResponse) (st : EngineState)
    (pkg : String) (hp : pkg ∈ st.fs.map Prod.fst) :
    descargar_paquete_step fenv st pkg =
      { st with
        stats := { st.stats with
          paquetes_descargados := st.stats.paquetes_descargados + 1 },
        log := st.log ++ ["Ya existe: " ++ pkg] } := by
  simp [descargar_paquete_step, hp]

theorem descargar_step_preserva (fenv : String → FetchResponse) (st : EngineState)
    (pkg : String) :
    (descargar_paquete_step fenv st pkg).outcomes = st.outcomes ∧
    (descargar_paquete_step fenv st pkg).verifCalls = st.verifCalls ∧
    (descargar_paquete_step fenv st pkg).stats.errores = st.stats.errores ∧
    (descargar_paquete_step fenv st pkg).stats.solicitudes_enviadas
      = st.stats.solicitudes_enviadas := by
  by_cases hmem : pkg ∈ st.fs.map Prod.fst
  · simp [descargar_paquete_step, hmem]
  · cases hf : fenv pkg with
    | ok data xmls => cases xmls <;> simp [descargar_paquete_step, hmem, hf]
    | sinDatos cod msg => simp [descargar_paquete_step, hmem, hf]
    | exn m => simp [descargar_paquete_step, hmem, hf]

theorem descargar_step_ok_some (fenv : String → FetchResponse) (st : EngineState)
    (pkg : String) (d : List Nat) (n : Nat)
    (hmem : pkg ∉ st.fs.map Prod.fst) (hf : fenv pkg = .ok d (some n)) :
    descargar_paquete_step fenv st pkg =
      { st with
        netCalls := st.netCalls ++ [pkg],
        fs := st.fs ++ [(pkg, d)],
        stats := { st.stats with
          paquetes_descargados := st.stats.paquetes_descargados + 1,
          xmls_extraidos := st.stats.xmls_extraidos + n },
        log := st.log ++ ["Guardado: " ++ pkg] ++ ["Contenido: XMLs"] } := by
  simp [descargar_paquete_step, hmem, hf]

theorem descargar_step_ok_none (fenv : String → FetchResponse) (st : EngineState)
    (pkg : String) (d : List Nat)
    (hmem : pkg ∉ st.fs.map Prod.fst) (hf : fenv pkg = .ok d none) :
    descargar_paquete_step fenv st pkg =
      { st with
        netCalls := st.netCalls ++ [pkg],
        fs := st.fs ++ [(pkg, d)],
        stats := { st.stats with
          paquetes_descargados := st.stats.paquetes_descargados + 1 },
        log := st.log ++ ["Guardado: " ++ pkg] } := by
  simp [descargar_paquete_step, hmem, hf]

theorem descargar_step_sin_datos (fenv : String → FetchResponse) (st : EngineState)
    (pkg cod msg : String)
    (hmem : pkg ∉ st.fs.map Prod.fst) (hf : fenv pkg = .sinDatos cod msg) :
    descargar_paquete_step fenv st pkg =
      { st with
        netCalls := st.netCalls ++ [pkg],
        log := st.log ++ ["Sin datos - cod=" ++ cod ++ " msg=" ++ msg] } := by
  simp [descargar_paquete_step, hmem, hf]

theorem descargar_step_excepcion (fenv : String → FetchResponse) (st : EngineState)
    (pkg m : String)
    (hmem : pkg ∉ st.fs.map Prod.fst) (hf : fenv pkg = .exn m) :
    descargar_paquete_step fenv st pkg =
      { st with
        netCalls := st.netCalls ++ [pkg],
        log := st.log ++ ["Error descargando: " ++ m] } := by
  simp [descargar_paquete_step, hmem, hf]

theorem descargar_step_fs_mono (fenv : String → FetchResponse) (st : EngineState)
    (pkg q : String) (hq : q ∈ st.fs.map Prod.fst) :
    q ∈ (descargar_paquete_step fenv st pkg).fs.map Prod.fst := by
  by_cases hmem : pkg ∈ st.fs.map Prod.fst
  · rw [descargar_step_presente fenv st pkg hmem]
    exact hq
  · cases hf : fenv pkg with
    | ok data xmls =>
      cases xmls with
      | some n =>
        rw [descargar_step_ok_some fenv st pkg data n hmem hf]
        show q ∈ (st.fs ++ [(pkg, data)]).map Prod.fst
        rw [List.map_append]
        exact List.mem_append_left _ hq
      | none =>
        rw [descargar_step_ok_none fenv st pkg data hmem hf]
        show q ∈ (st.fs ++ [(pkg, data)]).map Prod.fst
        rw [List.map_append]
        exact List.mem_append_left _ hq
    | sinDatos cod msg =>
      rw [descargar_step_sin_datos fenv st pkg cod msg hmem hf]
      exact hq
    | exn m =>
      rw [descargar_step_excepcion fenv st pkg m hmem hf]
      exact hq

theorem descargar_step_net_mono (fenv : String → FetchResponse) (st : EngineState)
    (pkg : String) :
    ∃ l, (descargar_paquete_step fenv st pkg).netCalls = st.netCalls ++ l := by
  by_cases hmem : pkg ∈ st.fs.map Prod.fst
  · refine ⟨[], ?_⟩
    rw [descargar_step_presente fenv st pkg hmem]
    simp
  · cases hf : fenv pkg with
    | ok data xmls =>
      cases xmls with
      | some n => exact ⟨[pkg], by rw [descargar_step_ok_some fenv st pkg data n hmem hf]⟩
      | none => exact ⟨[pkg], by rw [descargar_step_ok_none fenv st pkg data hmem hf]⟩
    | sinDatos cod msg =>
      exact ⟨[pkg], by rw [descargar_step_sin_datos fenv st pkg cod msg hmem hf]⟩
    | exn m =>
      exact ⟨[pkg], by rw [descargar_step_excepcion fenv st pkg m hmem hf]⟩

theorem descargar_step_escribe (fenv : String → FetchResponse) (st : EngineState)
    (pkg : String) (d : List Nat) (x : Option Nat) (hf : fenv pkg = .ok d x) :
    pkg ∈ (descargar_paquete_step fenv st pkg).fs.map Prod.fst := by
  by_cases hmem : pkg ∈ st.fs.map Prod.fst
  · rw [descargar_step_presente fenv st pkg hmem]
    exact hmem
  · cases x with
    | some n =>
      rw [descargar_step_ok_some fenv st pkg d n hmem hf]
      show pkg ∈ (st.fs ++ [(pkg, d)]).map Prod.fst
      rw [List.map_append]
      exact List.mem_append_right _ (by simp)
    | none =>
      rw [descargar_step_ok_none fenv st pkg d hmem hf]
      show pkg ∈ (st.fs ++ [(pkg, d)]).map Prod.fst
      rw [List.map_append]
      exact List.mem_append_right _ (by simp)

theorem descargar_step_llama (fenv : String → FetchResponse) (st : EngineState)
    (pkg : String) (hmem : pkg ∉ st.fs.map Prod.fst) :
    pkg ∈ (descargar_paquete_step fenv st pkg).netCalls := by
  cases hf : fenv pkg with
  | ok data xmls =>
    cases xmls with
    | some n =>
      rw [descargar_step_ok_some fenv st pkg data n hmem hf]
      exact List.mem_append_right _ (by simp)
    | none =>
      rw [descargar_step_ok_none fenv st pkg data hmem hf]
      exact List.mem_append_right _ (by simp)
  | sinDatos cod msg =>
    rw [descargar_step_sin_datos fenv st pkg cod msg hmem hf]
    exact List.mem_append_right _ (by simp)
  | exn m =>
    rw [descargar_step_excepcion fenv st pkg m hmem hf]
    exact List.mem_append_right _ (by simp)

theorem descargar_preserva (fenv : String → FetchResponse) (ps : List String) :
    ∀ st : EngineState,
      (descargar_paquetes fenv st ps).outcomes = st.outcomes ∧
      (descargar_paquetes fenv st ps).verifCalls = st.verifCalls ∧
      (descargar_paquetes fenv st ps).stats.errores = st.stats.errores ∧
      (descargar_paquetes fenv st ps).stats.solicitudes_enviadas
        = st.stats.solicitudes_enviadas := by
  induction ps with
  | nil => intro st; exact ⟨rfl, rfl, rfl, rfl⟩
  | cons p ps ih =>
    intro st
    rw [descargar_paquetes_cons]
    obtain ⟨h1, h2, h3, h4⟩ := descargar_step_preserva fenv st p
    obtain ⟨g1, g2, g3, g4⟩ := ih (descargar_paquete_step fenv st p)
    exact ⟨g1.trans h1, g2.trans h2, g3.trans h3, g4.trans h4⟩

theorem descargar_fs_mono (fenv : String → FetchResponse) (ps : List String) :
    ∀ (st : EngineState) (q : String), q ∈ st.fs.map Prod.fst →
      q ∈ (descargar_paquetes fenv st ps).fs.map Prod.fst := by
  induction ps with
  | nil => intro st q hq; exact hq
  | cons p ps ih =>
    intro st q hq
    rw [descargar_paquetes_cons]
    exact ih _ q (descargar_step_fs_mono fenv st p q hq)

theorem descargar_net_mono (fenv : String → FetchResponse) (ps : List String) :
    ∀ st : EngineState,
      ∃ l, (descargar_paquetes fenv st ps).netCalls = st.netCalls ++ l := by
  induction ps with
  | nil => intro st; exact ⟨[], by simp [descargar_paquetes_nil]⟩
  | cons p ps ih =>
    intro st
    rw [descargar_paquetes_cons]
    obtain ⟨l1, hl1⟩ := descargar_step_net_mono fenv st p
    obtain ⟨l2, hl2⟩ := ih (descargar_paquete_step fenv st p)
    exact ⟨l1 ++ l2, by rw [hl2, hl1, List.append_assoc]⟩

theorem descargar_presentes (fenv : String → FetchResponse) (ps : List String) :
    ∀ st : EngineState, (∀ p ∈ ps, p ∈ st.fs.map Prod.fst) →
      (descargar_paquetes fenv st ps).netCalls = st.netCalls ∧
      (descargar_paquetes fenv st ps).fs = st.fs ∧
      (descargar_paquetes fenv st ps).stats.paquetes_descargados
        = st.stats.paquetes_descargados + ps.length ∧
      (descargar_paquetes fenv st ps).stats.errores = st.stats.errores ∧
      (descargar_paquetes fenv st ps).stats.xmls_extraidos
        = st.stats.xmls_extraidos := by
  induction ps with
  | nil => intro st _; exact ⟨rfl, rfl, rfl, rfl, rfl⟩
  | cons p ps ih =>
    intro st h
    have hp : p ∈ st.fs.map Prod.fst := h p (List.mem_cons_self _ _)
    rw [descargar_paquetes_cons, descargar_step_presente fenv st p hp]
    obtain ⟨g1, g2, g3, g4, g5⟩ := ih
      ({ st with
         stats := { st.stats with
           paquetes_descargados := st.stats.paquetes_descargados + 1 },
         log := st.log ++ ["Ya existe: " ++ p] })
      (fun q hq => h q (List.mem_cons_of_mem _ hq))
    refine ⟨g1, g2, ?_, g4, g5⟩
    rw [g3]
    show st.stats.paquetes_descargados + 1 + ps.length
      = st.stats.paquetes_descargados + (p :: ps).length
    rw [List.length_cons]
    omega

theorem descargar_escribe (fenv : String → FetchResponse) (ps : List String) :
    ∀ (st : EngineState) (q : String), q ∈ ps →
      (∃ d x, fenv q = .ok d x) →
      q ∈ (descargar_paquetes fenv st ps).fs.map Prod.fst := by
  induction ps with
  | nil => intro st q hq; exact absurd hq (List.not_mem_nil q)
  | cons p ps ih =>
    intro st q hq hok
    rw [descargar_paquetes_cons]
    rcases List.mem_cons.mp hq with hq | hq
    · subst hq
      obtain ⟨d, x, hf⟩ := hok
      exact descargar_fs_mono fenv ps _ q (descargar_step_escribe fenv st q d x hf)
    · exact ih _ q hq hok

theorem descargar_step_fs_nuevo (fenv : String → FetchResponse) (st : EngineState)
    (pkg q : String)
    (hq : q ∈ (descargar_paquete_step fenv st pkg).fs.map Prod.fst) :
    q ∈ st.fs.map Prod.fst ∨ q ∈ (descargar_paquete_step fenv st pkg).netCalls := by
  by_cases hmem : pkg ∈ st.fs.map Prod.fst
  · rw [descargar_step_presente fenv st pkg hmem] at hq
    exact Or.inl hq
  · cases hf : fenv pkg with
    | ok data xmls =>
      have key : ∀ st' : EngineState, st'.fs = st.fs ++ [(pkg, data)] →
          st'.netCalls = st.netCalls ++ [pkg] →
          q ∈ st'.fs.map Prod.fst → q ∈ st.fs.map Prod.fst ∨ q ∈ st'.netCalls := by
        intro st' hfs hnet hq'
        rw [hfs, List.map_append] at hq'
        rcases List.mem_append.mp hq' with h | h
        · exact Or.inl h
        · right
          rw [hnet]
          refine List.mem_append_right _ ?_
          simpa using h
      cases xmls with
      | some n =>
        rw [descargar_step_ok_some fenv st pkg data n hmem hf] at hq ⊢
        exact key _ rfl rfl hq
      | none =>
        rw [descargar_step_ok_none fenv st pkg data hmem hf] at hq ⊢
        exact key _ rfl rfl hq
    | sinDatos cod msg =>
      rw [descargar_step_sin_datos fenv st pkg cod msg hmem hf] at hq
      exact Or.inl hq
    | exn m =>
      rw [descargar_step_excepcion fenv st pkg m hmem hf] at hq
      exact Or.inl hq

theorem descargar_netCalls_acum (fenv : String → FetchResponse) (ps : List String) :
    ∀ (st : EngineState) (q : String), q ∈ st.netCalls →
      q ∈ (descargar_paquetes fenv st ps).netCalls := by
  intro st q hq
  obtain ⟨l, hl⟩ := descargar_net_mono fenv ps st
  rw [hl]
  exact List.mem_append_left _ hq

theorem descargar_llama_o_presente (fenv : String → FetchResponse) (ps : List String) :
    ∀ (st : EngineState) (q : String), q ∈ ps →
      q ∈ (descargar_paquetes fenv st ps).netCalls ∨ q ∈ st.fs.map Prod.fst := by
  induction ps with
  | nil => intro st q hq; exact absurd hq (List.not_mem_nil q)
  | cons p ps ih =>
    intro st q hq
    rw [descargar_paquetes_cons]
    rcases List.mem_cons.mp hq with hq | hq
    · subst hq
      by_cases hmem : q ∈ st.fs.map Prod.fst
      · exact Or.inr hmem
      · exact Or.inl (descargar_netCalls_acum fenv ps _ q
          (descargar_step_llama fenv st q hmem))
    · rcases ih (descargar_paquete_step fenv st p) q hq with h | h
      · exact Or.inl h
      · rcases descargar_step_fs_nuevo fenv st p q h with h2 | h2
        · exact Or.inr h2
        · exact Or.inl (descargar_netCalls_acum fenv ps _ q h2)

/-! ### One verification step of the polling round -/

theorem procesar_excepcion (venv : String → VerifyResponse)
    (fenv : String → FetchResponse) (st : EngineState) (sol : Sol) (m : String)
    (hv : venv sol.id = .exn m) :
    procesar_sol venv fenv st sol =
      ({ st with
         verifCalls := st.verifCalls ++ [sol.id],
         log := st.log ++ ["Error verificando: " ++ m] }, true) := by
  simp [procesar_sol, hv]

theorem procesar_estado1 (venv : String → VerifyResponse)
    (fenv : String → FetchResponse) (st : EngineState) (sol : Sol)
    (ps : List String) (hv : venv sol.id = .ok 1 ps) :
    procesar_sol venv fenv st sol =
      ({ st with
         verifCalls := st.verifCalls ++ [sol.id],
         log := st.log ++ ["Estado: Aceptada"] }, true) := by
  simp [procesar_sol, hv]

theorem procesar_estado2 (venv : String → VerifyResponse)
    (fenv : String → FetchResponse) (st : EngineState) (sol : Sol)
    (ps : List String) (hv : venv sol.id = .ok 2 ps) :
    procesar_sol venv fenv st sol =
      ({ st with
         verifCalls := st.verifCalls ++ [sol.id],
         log := st.log ++ ["Estado: En proceso"] }, true) := by
  simp [procesar_sol, hv]

theorem procesar_estado3_vacio (venv : String → VerifyResponse)
    (fenv : String → FetchResponse) (st : EngineState) (sol : Sol)
    (hv : venv sol.id = .ok 3 []) :
    procesar_sol venv fenv st sol =
      ({ st with
         verifCalls := st.verifCalls ++ [sol.id],
         outcomes := st.outcomes ++ [(sol.id, Outcome.vacia)],
         log := st.log ++ ["Sin paquetes"] }, false) := by
  simp [procesar_sol, hv]

theorem procesar_estado3_con (venv : String → VerifyResponse)
    (fenv : String → FetchResponse) (st : EngineState) (sol : Sol)
    (ps : List String) (hv : venv sol.id = .ok 3 ps) (hps : ps ≠ []) :
    procesar_sol venv fenv st sol =
      ({ descargar_paquetes fenv
           { st with
             verifCalls := st.verifCalls ++ [sol.id],
             log := st.log ++ ["Estado: Lista para descarga"] } ps with
         outcomes :=
           (descargar_paquetes fenv
             { st with
               verifCalls := st.verifCalls ++ [sol.id],
               log := st.log ++ ["Estado: Lista para descarga"] } ps).outcomes
           ++ [(sol.id, Outcome.ready ps)] }, false) := by
  simp [procesar_sol, hv, hps]

theorem procesar_estado45 (venv : String → VerifyResponse)
    (fenv : String → FetchResponse) (st : EngineState) (sol : Sol)
    (e : Int) (ps : List String) (he : e = 4 ∨ e = 5)
    (hv : venv sol.id = .ok e ps) :
    procesar_sol venv fenv st sol =
      ({ st with
         verifCalls := st.verifCalls ++ [sol.id],
         stats := { st.stats with errores := st.stats.errores + 1 },
         outcomes := st.outcomes ++ [(sol.id, Outcome.rejected e)],
         log := st.log ++ ["Estado: Error/Rechazada"] }, false) := by
  have h1 : e ≠ 1 := by omega
  have h2 : e ≠ 2 := by omega
  have h3 : e ≠ 3 := by omega
  simp [procesar_sol, hv, h1, h2, h3, he]

theorem procesar_desconocido (venv : String → VerifyResponse)
    (fenv : String → FetchResponse) (st : EngineState) (sol : Sol)
    (e : Int) (ps : List String)
    (h1 : e ≠ 1) (h2 : e ≠ 2) (h3 : e ≠ 3) (h4 : e ≠ 4) (h5 : e ≠ 5)
    (hv : venv sol.id = .ok e ps) :
    procesar_sol venv fenv st sol =
      ({ st with
         verifCalls := st.verifCalls ++ [sol.id],
         log := st.log ++ ["Estado desconocido"] }, true) := by
  simp [procesar_sol, hv, h1, h2, h3, h4, h5]

theorem cuentaRechazos_append (a b : List (String × Outcome)) :
    cuentaRechazos (a ++ b) = cuentaRechazos a + cuentaRechazos b := by
  simp [cuentaRechazos, List.filter_append]

theorem procesar_componentes (venv : String → VerifyResponse)
    (fenv : String → FetchResponse) (st : EngineState) (sol : Sol) :
    (procesar_sol venv fenv st sol).2 = keepB (venv sol.id) ∧
    (procesar_sol venv fenv st sol).1.outcomes
      = st.outcomes ++ outcomeOf sol.id (venv sol.id) ∧
    (procesar_sol venv fenv st sol).1.stats.errores
      = st.stats.errores + cuentaRechazos (outcomeOf sol.id (venv sol.id)) ∧
    (procesar_sol venv fenv st sol).1.verifCalls = st.verifCalls ++ [sol.id] ∧
    (procesar_sol venv fenv st sol).1.stats.solicitudes_enviadas
      = st.stats.solicitudes_enviadas := by
  cases hv : venv sol.id with
  | exn m =>
    rw [procesar_excepcion venv fenv st sol m hv]
    simp [keepB, outcomeOf, cuentaRechazos]
  | ok e ps =>
    by_cases h1 : e = 1
    · subst h1
      rw [procesar_estado1 venv fenv st sol ps hv]
      simp [keepB, outcomeOf, cuentaRechazos]
    by_cases h2 : e = 2
    · subst h2
      rw [procesar_estado2 venv fenv st sol ps hv]
      simp [keepB, outcomeOf, cuentaRechazos]
    by_cases h3 : e = 3
    · subst h3
      by_cases hps : ps = []
      · subst hps
        rw [procesar_estado3_vacio venv fenv st sol hv]
        simp [keepB, outcomeOf, cuentaRechazos, esRechazo]
      · rw [procesar_estado3_con venv fenv st sol ps hv hps]
        obtain ⟨g1, g2, g3, g4⟩ := descargar_preserva fenv ps
          { st with
            verifCalls := st.verifCalls ++ [sol.id],
            log := st.log ++ ["Estado: Lista para descarga"] }
        refine ⟨by simp [keepB], ?_, ?_, ?_, ?_⟩
        · show (descargar_paquetes fenv _ ps).outcomes ++ [(sol.id, Outcome.ready ps)]
            = st.outcomes ++ outcomeOf sol.id (VerifyResponse.ok 3 ps)
          rw [g1]
          simp [outcomeOf, hps]
        · show (descargar_paquetes fenv _ ps).stats.errores
            = st.stats.errores + cuentaRechazos (outcomeOf sol.id (VerifyResponse.ok 3 ps))
          rw [g3]
          simp [outcomeOf, hps, cuentaRechazos, esRechazo]
        · show (descargar_paquetes fenv _ ps).verifCalls = st.verifCalls ++ [sol.id]
          rw [g2]
        · show (descargar_paquetes fenv _ ps).stats.solicitudes_enviadas
            = st.stats.solicitudes_enviadas
          rw [g4]
    by_cases h45 : e = 4 ∨ e = 5
    · rw [procesar_estado45 venv fenv st sol e ps h45 hv]
      have h1' : e ≠ 1 := h1
      have h2' : e ≠ 2 := h2
      have h3' : e ≠ 3 := h3
      simp [keepB, outcomeOf, cuentaRechazos, esRechazo, h1', h2', h3', h45]
    · have h4 : e ≠ 4 := fun h => h45 (Or.inl h)
      have h5 : e ≠ 5 := fun h => h45 (Or.inr h)
      rw [procesar_desconocido venv fenv st sol e ps h1 h2 h3 h4 h5 hv]
      simp [keepB, outcomeOf, cuentaRechazos, h1, h2, h3, h4, h5, h45]

theorem outcomeOf_ids (i : String) (r : VerifyResponse) :
    (outcomeOf i r).map Prod.fst = if keepB r then [] else [i] := by
  cases r with
  | exn m => simp [outcomeOf, keepB]
  | ok e ps =>
    simp only [outcomeOf, keepB]
    split_ifs <;> simp_all

theorem procesar_mantiene (venv : String → VerifyResponse)
    (fenv : String → FetchResponse) (st : EngineState) (sol : Sol)
    (h : keepB (venv sol.id) = true) :
    (procesar_sol venv fenv st sol).1.stats = st.stats ∧
    (procesar_sol venv fenv st sol).1.netCalls = st.netCalls ∧
    (procesar_sol venv fenv st sol).1.fs = st.fs ∧
    (procesar_sol venv fenv st sol).1.outcomes = st.outcomes := by
  cases hv : venv sol.id with
  | exn m =>
    rw [procesar_excepcion venv fenv st sol m hv]
    exact ⟨rfl, rfl, rfl, rfl⟩
  | ok e ps =>
    rw [hv] at h
    by_cases h1 : e = 1
    · subst h1
      rw [procesar_estado1 venv fenv st sol ps hv]
      exact ⟨rfl, rfl, rfl, rfl⟩
    by_cases h2 : e = 2
    · subst h2
      rw [procesar_estado2 venv fenv st sol ps hv]
      exact ⟨rfl, rfl, rfl, rfl⟩
    by_cases h3 : e = 3
    · subst h3
      simp [keepB, h1, h2] at h
    by_cases h45 : e = 4 ∨ e = 5
    · simp [keepB, h1, h2, h3, h45] at h
    · have h4 : e ≠ 4 := fun hx => h45 (Or.inl hx)
      have h5 : e ≠ 5 := fun hx => h45 (Or.inr hx)
      rw [procesar_desconocido venv fenv st sol e ps h1 h2 h3 h4 h5 hv]
      exact ⟨rfl, rfl, rfl, rfl⟩

/-! ### The polling round and loop -/

theorem ronda_cons (venv : String → VerifyResponse) (fenv : String → FetchResponse)
    (sol : Sol) (resto : List Sol) (st : EngineState) :
    ronda venv fenv (sol :: resto) st =
      (if (procesar_sol venv fenv st sol).2
        then sol :: (ronda venv fenv resto (procesar_sol venv fenv st sol).1).1
        else (ronda venv fenv resto (procesar_sol venv fenv st sol).1).1,
       (ronda venv fenv resto (procesar_sol venv fenv st sol).1).2) := rfl

theorem ronda_spec (venv : String → VerifyResponse) (fenv : String → FetchResponse)
    (l : List Sol) : ∀ st : EngineState,
    (ronda venv fenv l st).1 = l.filter (fun s => keepB (venv s.id)) ∧
    (ronda venv fenv l st).2.outcomes = st.outcomes ++ salidasDe venv l ∧
    (ronda venv fenv l st).2.stats.errores
      = st.stats.errores + cuentaRechazos (salidasDe venv l) ∧
    (ronda venv fenv l st).2.verifCalls = st.verifCalls ++ l.map Sol.id ∧
    (ronda venv fenv l st).2.stats.solicitudes_enviadas
      = st.stats.solicitudes_enviadas := by
  induction l with
  | nil =>
    intro st
    exact ⟨rfl, by simp [ronda, salidasDe], by simp [ronda, salidasDe, cuentaRechazos],
      by simp [ronda], rfl⟩
  | cons s l ih =>
    intro st
    rw [ronda_cons]
    obtain ⟨c1, c2, c3, c4, c5⟩ := procesar_componentes venv fenv st s
    obtain ⟨i1, i2, i3, i4, i5⟩ := ih (procesar_sol venv fenv st s).1
    refine ⟨?_, ?_, ?_, ?_, ?_⟩
    · rw [c1]
      by_cases hk : keepB (venv s.id) = true <;> simp [hk, i1]
    · show (ronda venv fenv l (procesar_sol venv fenv st s).1).2.outcomes
        = st.outcomes ++ salidasDe venv (s :: l)
      rw [i2, c2, salidasDe, List.append_assoc]
    · show (ronda venv fenv l (procesar_sol venv fenv st s).1).2.stats.errores
        = st.stats.errores + cuentaRechazos (salidasDe venv (s :: l))
      rw [i3, c3, salidasDe, cuentaRechazos_append]
      omega
    · show (ronda venv fenv l (procesar_sol venv fenv st s).1).2.verifCalls
        = st.verifCalls ++ (s :: l).map Sol.id
      rw [i4, c4]
      simp
    · exact i5.trans c5

theorem filtrar_ids_keep (venv : String → VerifyResponse) (l : List Sol) :
    (l.filter (fun s => keepB (venv s.id))).map Sol.id
      = (l.map Sol.id).filter (fun i => keepB (venv i)) := by
  induction l with
  | nil => rfl
  | cons s l ih =>
    by_cases h : keepB (venv s.id) = true <;> simp [h, ih]

theorem salidasDe_ids (venv : String → VerifyResponse) (l : List Sol) :
    (salidasDe venv l).map Prod.fst
      = (l.map Sol.id).filter (fun i => !keepB (venv i)) := by
  induction l with
  | nil => rfl
  | cons s l ih =>
    by_cases h : keepB (venv s.id) = true <;>
      simp [salidasDe, List.map_append, outcomeOf_ids, h, ih]

theorem ronda_nodup (venv : String → VerifyResponse) (fenv : String → FetchResponse)
    (l : List Sol) (st : EngineState)
    (h : (l.map Sol.id ++ st.outcomes.map Prod.fst).Nodup) :
    ((ronda venv fenv l st).1.map Sol.id
      ++ (ronda venv fenv l st).2.outcomes.map Prod.fst).Nodup := by
  obtain ⟨h1, h2, _, _, _⟩ := ronda_spec venv fenv l st
  rw [h1, h2, List.map_append, filtrar_ids_keep, salidasDe_ids]
  have hpermA : List.Perm
      ((l.map Sol.id).filter (fun i => keepB (venv i))
        ++ (l.map Sol.id).filter (fun i => !keepB (venv i)))
      (l.map Sol.id) := List.filter_append_perm _ _
  have hperm : List.Perm
      ((l.map Sol.id).filter (fun i => keepB (venv i))
        ++ (st.outcomes.map Prod.fst
            ++ (l.map Sol.id).filter (fun i => !keepB (venv i))))
      (l.map Sol.id ++ st.outcomes.map Prod.fst) := by
    have h1p : List.Perm
        (st.outcomes.map Prod.fst
          ++ (l.map Sol.id).filter (fun i => !keepB (venv i)))
        ((l.map Sol.id).filter (fun i => !keepB (venv i))
          ++ st.outcomes.map Prod.fst) := List.perm_append_comm
    refine (List.Perm.append_left _ h1p).trans ?_
    rw [← List.append_assoc]
    exact List.Perm.append_right _ hpermA
  exact hperm.symm.nodup h

theorem bucle_cero (venv : Nat → String → VerifyResponse)
    (fenv : String → FetchResponse) (intr : Nat → Bool)
    (i : Nat) (p : List Sol) (st : EngineState) :
    bucle venv fenv intr 0 i p st = (p, st, i) := rfl

theorem bucle_succ (venv : Nat → String → VerifyResponse)
    (fenv : String → FetchResponse) (intr : Nat → Bool)
    (fuel i : Nat) (p : List Sol) (st : EngineState) :
    bucle venv fenv intr (fuel + 1) i p st =
      if p = [] then (p, st, i)
      else if (ronda (venv (i + 1)) fenv p st).1 ≠ [] ∧ intr (i + 1) then
        ((ronda (venv (i + 1)) fenv p st).1, (ronda (venv (i + 1)) fenv p st).2, i + 1)
      else bucle venv fenv intr fuel (i + 1)
        (ronda (venv (i + 1)) fenv p st).1 (ronda (venv (i + 1)) fenv p st).2 := rfl

theorem bucle_intentos (venv : Nat → String → VerifyResponse)
    (fenv : String → FetchResponse) (intr : Nat → Bool) :
    ∀ (fuel i : Nat) (p : List Sol) (st : EngineState),
      (bucle venv fenv intr fuel i p st).2.2 ≤ i + fuel := by
  intro fuel
  induction fuel with
  | zero =>
    intro i p st
    rw [bucle_cero]
    show i ≤ i + 0
    omega
  | succ n ih =>
    intro i p st
    rw [bucle_succ]
    by_cases hp : p = []
    · rw [if_pos hp]
      show i ≤ i + (n + 1)
      omega
    · rw [if_neg hp]
      by_cases hint : (ronda (venv (i + 1)) fenv p st).1 ≠ [] ∧ intr (i + 1)
      · rw [if_pos hint]; show i + 1 ≤ i + (n + 1); omega
      · rw [if_neg hint]
        have := ih (i + 1) (ronda (venv (i + 1)) fenv p st).1
          (ronda (venv (i + 1)) fenv p st).2
        omega

theorem bucle_nodup (venv : Nat → String → VerifyResponse)
    (fenv : String → FetchResponse) (intr : Nat → Bool) :
    ∀ (fuel i : Nat) (p : List Sol) (st : EngineState),
      (p.map Sol.id ++ st.outcomes.map Prod.fst).Nodup →
      ((bucle venv fenv intr fuel i p st).1.map Sol.id
        ++ (bucle venv fenv intr fuel i p st).2.1.outcomes.map Prod.fst).Nodup := by
  intro fuel
  induction fuel with
  | zero => intro i p st h; rw [bucle_cero]; exact h
  | succ n ih =>
    intro i p st h
    rw [bucle_succ]
    by_cases hp : p = []
    · rw [if_pos hp]; exact h
    · rw [if_neg hp]
      have hr := ronda_nodup (venv (i + 1)) fenv p st h
      by_cases hint : (ronda (venv (i + 1)) fenv p st).1 ≠ [] ∧ intr (i + 1)
      · rw [if_pos hint]; exact hr
      · rw [if_neg hint]
        exact ih (i + 1) _ _ hr

theorem bucle_verif (venv : Nat → String → VerifyResponse)
    (fenv : String → FetchResponse) (intr : Nat → Bool) :
    ∀ (fuel i : Nat) (p : List Sol) (st : EngineState) (q : String),
      q ∈ (bucle venv fenv intr fuel i p st).2.1.verifCalls →
      q ∈ st.verifCalls ∨ q ∈ p.map Sol.id := by
  intro fuel
  induction fuel with
  | zero => intro i p st q hq; rw [bucle_cero] at hq; exact Or.inl hq
  | succ n ih =>
    intro i p st q hq
    rw [bucle_succ] at hq
    by_cases hp : p = []
    · rw [if_pos hp] at hq; exact Or.inl hq
    · rw [if_neg hp] at hq
      obtain ⟨r1, _, _, r4, _⟩ := ronda_spec (venv (i + 1)) fenv p st
      by_cases hint : (ronda (venv (i + 1)) fenv p st).1 ≠ [] ∧ intr (i + 1)
      · rw [if_pos hint] at hq
        rw [r4] at hq
        exact List.mem_append.mp hq
      · rw [if_neg hint] at hq
        rcases ih (i + 1) _ _ q hq with h | h
        · rw [r4] at h
          exact List.mem_append.mp h
        · rw [r1] at h
          obtain ⟨s, hs, hsq⟩ := List.mem_map.mp h
          exact Or.inr (List.mem_map.mpr ⟨s, (List.mem_filter.mp hs).1, hsq⟩)

theorem bucle_errores (venv : Nat → String → VerifyResponse)
    (fenv : String → FetchResponse) (intr : Nat → Bool) :
    ∀ (fuel i : Nat) (p : List Sol) (st : EngineState),
      (bucle venv fenv intr fuel i p st).2.1.stats.errores
          + cuentaRechazos st.outcomes
        = st.stats.errores
          + cuentaRechazos (bucle venv fenv intr fuel i p st).2.1.outcomes := by
  intro fuel
  induction fuel with
  | zero => intro i p st; rw [bucle_cero]
  | succ n ih =>
    intro i p st
    rw [bucle_succ]
    by_cases hp : p = []
    · rw [if_pos hp]
    · rw [if_neg hp]
      obtain ⟨_, r2, r3, _, _⟩ := ronda_spec (venv (i + 1)) fenv p st
      by_cases hint : (ronda (venv (i + 1)) fenv p st).1 ≠ [] ∧ intr (i + 1)
      · rw [if_pos hint]
        show (ronda (venv (i + 1)) fenv p st).2.stats.errores
            + cuentaRechazos st.outcomes
          = st.stats.errores
            + cuentaRechazos (ronda (venv (i + 1)) fenv p st).2.outcomes
        rw [r2, r3, cuentaRechazos_append]
        omega
      · rw [if_neg hint]
        have hrec := ih (i + 1) (ronda (venv (i + 1)) fenv p st).1
          (ronda (venv (i + 1)) fenv p st).2
        rw [r2, cuentaRechazos_append] at hrec
        rw [r3] at hrec
        omega

/-! ### The submission loop -/

theorem enviar_nil (senv : Nat → SubmitResponse) (i : Nat)
    (acc : List Sol × EngineState) :
    enviar_solicitudes senv i [] acc = acc := rfl

theorem enviar_cons (senv : Nat → SubmitResponse) (i : Nat) (r : Nat × Nat)
    (rs : List (Nat × Nat)) (acc : List Sol × EngineState) :
    enviar_solicitudes senv i (r :: rs) acc =
      enviar_solicitudes senv (i + 1) rs (enviar_paso (senv i) r acc) := rfl

theorem enviar_paso_outcomes (resp : SubmitResponse) (rango : Nat × Nat)
    (acc : List Sol × EngineState) :
    (enviar_paso resp rango acc).2.outcomes = acc.2.outcomes := by
  cases resp with
  | ok cod msg rid => cases rid <;> rfl
  | exn m => rfl

theorem enviar_outcomes (senv : Nat → SubmitResponse) (rangos : List (Nat × Nat)) :
    ∀ (i : Nat) (acc : List Sol × EngineState),
      (enviar_solicitudes senv i rangos acc).2.outcomes = acc.2.outcomes := by
  induction rangos with
  | nil => intro i acc; rfl
  | cons r rs ih =>
    intro i acc
    rw [enviar_cons]
    exact (ih (i + 1) _).trans (enviar_paso_outcomes (senv i) r acc)

theorem enviar_cuenta (senv : Nat → SubmitResponse) (rangos : List (Nat × Nat)) :
    ∀ (i : Nat) (sols : List Sol) (st : EngineState), ∃ k,
      (enviar_solicitudes senv i rangos (sols, st)).1.length = sols.length + k ∧
      k ≤ rangos.length ∧
      (enviar_solicitudes senv i rangos (sols, st)).2.stats.solicitudes_enviadas
        = st.stats.solicitudes_enviadas + k ∧
      (enviar_solicitudes senv i rangos (sols, st)).2.stats.errores
        = st.stats.errores + (rangos.length - k) := by
  induction rangos with
  | nil =>
    intro i sols st
    exact ⟨0, by simp [enviar_nil], by simp, by simp [enviar_nil], by simp [enviar_nil]⟩
  | cons r rs ih =>
    intro i sols st
    rw [enviar_cons]
    cases hs : senv i with
    | ok cod msg rid =>
      cases rid with
      | some rid0 =>
        have hstep : enviar_paso (SubmitResponse.ok cod msg (some rid0)) r (sols, st) =
            (sols ++ [⟨rid0, r.1, r.2, 1⟩],
             { st with
               stats := { st.stats with
                 solicitudes_enviadas := st.stats.solicitudes_enviadas + 1 },
               log := st.log ++ ["ID: " ++ rid0] }) := rfl
        rw [hstep]
        obtain ⟨k, g1, g2, g3, g4⟩ := ih (i + 1) (sols ++ [⟨rid0, r.1, r.2, 1⟩])
          ({ st with
             stats := { st.stats with
               solicitudes_enviadas := st.stats.solicitudes_enviadas + 1 },
             log := st.log ++ ["ID: " ++ rid0] })
        refine ⟨k + 1, ?_, ?_, ?_, ?_⟩
        · rw [g1]
          simp
          omega
        · rw [List.length_cons]
          omega
        · rw [g3]
          show st.stats.solicitudes_enviadas + 1 + k
            = st.stats.solicitudes_enviadas + (k + 1)
          omega
        · rw [g4]
          show st.stats.errores + (rs.length - k)
            = st.stats.errores + ((r :: rs).length - (k + 1))
          rw [List.length_cons]
          omega
      | none =>
        have hstep : enviar_paso (SubmitResponse.ok cod msg none) r (sols, st) =
            (sols,
             { st with
               stats := { st.stats with errores := st.stats.errores + 1 },
               log := st.log ++ ["Sin ID - cod=" ++ cod ++ " msg=" ++ msg] }) := rfl
        rw [hstep]
        obtain ⟨k, g1, g2, g3, g4⟩ := ih (i + 1) sols
          ({ st with
             stats := { st.stats with errores := st.stats.errores + 1 },
             log := st.log ++ ["Sin ID - cod=" ++ cod ++ " msg=" ++ msg] })
        refine ⟨k, g1, ?_, g3, ?_⟩
        · rw [List.length_cons]
          omega
        · rw [g4]
          show st.stats.errores + 1 + (rs.length - k)
            = st.stats.errores + ((r :: rs).length - k)
          rw [List.length_cons]
          omega
    | exn m =>
      have hstep : enviar_paso (SubmitResponse.exn m) r (sols, st) =
          (sols,
           { st with
             stats := { st.stats with errores := st.stats.errores + 1 },
             log := st.log ++ ["Error: " ++ m] }) := rfl
      rw [hstep]
      obtain ⟨k, g1, g2, g3, g4⟩ := ih (i + 1) sols
        ({ st with
           stats := { st.stats with errores := st.stats.errores + 1 },
           log := st.log ++ ["Error: " ++ m] })
      refine ⟨k, g1, ?_, g3, ?_⟩
      · rw [List.length_cons]
        omega
      · rw [g4]
        show st.stats.errores + 1 + (rs.length - k)
          = st.stats.errores + ((r :: rs).length - k)
        rw [List.length_cons]
        omega

theorem ejecutar_eq (senv : Nat → SubmitResponse)
    (venv : Nat → String → VerifyResponse) (fenv : String → FetchResponse)
    (intr : Nat → Bool) (fi ff : Nat) (st : EngineState) :
    ejecutar_descarga senv venv fenv intr fi ff st =
      if (enviar_solicitudes senv 0 (dividir_periodos fi ff 7) ([], st)).1 = []
      then (false, [],
        (enviar_solicitudes senv 0 (dividir_periodos fi ff 7) ([], st)).2, 0)
      else (true,
        (bucle venv fenv intr max_intentos 0
          (enviar_solicitudes senv 0 (dividir_periodos fi ff 7) ([], st)).1
          (enviar_solicitudes senv 0 (dividir_periodos fi ff 7) ([], st)).2).1,
        (bucle venv fenv intr max_intentos 0
          (enviar_solicitudes senv 0 (dividir_periodos fi ff 7) ([], st)).1
          (enviar_solicitudes senv 0 (dividir_periodos fi ff 7) ([], st)).2).2.1,
        (bucle venv fenv intr max_intentos 0
          (enviar_solicitudes senv 0 (dividir_periodos fi ff 7) ([], st)).1
          (enviar_solicitudes senv 0 (dividir_periodos fi ff 7) ([], st)).2).2.2) := rfl

/-! ### Claim theorems -/

/-- C1: in every polling round the verification response's numeric
`estado_solicitud` is mapped by the fixed table: codes 1 (Aceptada) and
2 (En proceso) keep the request in the working set with nothing else
changed; code 3 (Lista) removes it after the listed packages are
retrieved first (each listed package ends up fetched over the network or
was already on disk); codes 4 and 5 remove the request and increment the
error counter; any other code is unknown and keeps the request for the
next round. -/
theorem stateCode_mapping :
    (∀ (venv : String → VerifyResponse) (fenv : String → FetchResponse)
        (st : EngineState) (sol : Sol) (e : Int) (ps : List String),
      venv sol.id = VerifyResponse.ok e ps → e = 1 ∨ e = 2 →
        (procesar_sol venv fenv st sol).2 = true ∧
        (procesar_sol venv fenv st sol).1.stats = st.stats ∧
        (procesar_sol venv fenv st sol).1.outcomes = st.outcomes ∧
        (procesar_sol venv fenv st sol).1.netCalls = st.netCalls) ∧
    (∀ (venv : String → VerifyResponse) (fenv : String → FetchResponse)
        (st : EngineState) (sol : Sol) (ps : List String),
      venv sol.id = VerifyResponse.ok 3 ps →
        (procesar_sol venv fenv st sol).2 = false ∧
        (procesar_sol venv fenv st sol).1.outcomes
          = st.outcomes
            ++ [(sol.id, if ps = [] then Outcome.vacia else Outcome.ready ps)] ∧
        (procesar_sol venv fenv st sol).1.stats.errores = st.stats.errores ∧
        (∀ q ∈ ps, q ∈ (procesar_sol venv fenv st sol).1.netCalls
          ∨ q ∈ st.fs.map Prod.fst)) ∧
    (∀ (venv : String → VerifyResponse) (fenv : String → FetchResponse)
        (st : EngineState) (sol : Sol) (e : Int) (ps : List String),
      venv sol.id = VerifyResponse.ok e ps → e = 4 ∨ e = 5 →
        (procesar_sol venv fenv st sol).2 = false ∧
        (procesar_sol venv fenv st sol).1.stats.errores = st.stats.errores + 1 ∧
        (procesar_sol venv fenv st sol).1.outcomes
          = st.outcomes ++ [(sol.id, Outcome.rejected e)]) ∧
    (∀ (venv : String → VerifyResponse) (fenv : String → FetchResponse)
        (st : EngineState) (sol : Sol) (e : Int) (ps : List String),
      venv sol.id = VerifyResponse.ok e ps →
        e ≠ 1 → e ≠ 2 → e ≠ 3 → e ≠ 4 → e ≠ 5 →
        (procesar_sol venv fenv st sol).2 = true ∧
        (procesar_sol venv fenv st sol).1.stats = st.stats ∧
        (procesar_sol venv fenv st sol).1.outcomes = st.outcomes) := by
  refine ⟨?_, ?_, ?_, ?_⟩
  · intro venv fenv st sol e ps hv h12
    rcases h12 with h1 | h2
    · subst h1
      rw [procesar_estado1 venv fenv st sol ps hv]
      exact ⟨rfl, rfl, rfl, rfl⟩
    · subst h2
      rw [procesar_estado2 venv fenv st sol ps hv]
      exact ⟨rfl, rfl, rfl, rfl⟩
  · intro venv fenv st sol ps hv
    by_cases hps : ps = []
    · subst hps
      rw [procesar_estado3_vacio venv fenv st sol hv]
      refine ⟨rfl, by simp, rfl, ?_⟩
      intro q hq
      exact absurd hq (List.not_mem_nil q)
    · rw [procesar_estado3_con venv fenv st sol ps hv hps]
      obtain ⟨g1, g2, g3, g4⟩ := descargar_preserva fenv ps
        { st with
          verifCalls := st.verifCalls ++ [sol.id],
          log := st.log ++ ["Estado: Lista para descarga"] }
      refine ⟨rfl, ?_, ?_, ?_⟩
      · show (descargar_paquetes fenv _ ps).outcomes ++ [(sol.id, Outcome.ready ps)]
          = st.outcomes
            ++ [(sol.id, if ps = [] then Outcome.vacia else Outcome.ready ps)]
        rw [g1]
        simp [hps]
      · show (descargar_paquetes fenv _ ps).stats.errores = st.stats.errores
        rw [g3]
      · intro q hq
        show q ∈ (descargar_paquetes fenv _ ps).netCalls ∨ q ∈ st.fs.map Prod.fst
        exact descargar_llama_o_presente fenv ps _ q hq
  · intro venv fenv st sol e ps hv h45
    rw [procesar_estado45 venv fenv st sol e ps h45 hv]
    exact ⟨rfl, rfl, rfl⟩
  · intro venv fenv st sol e ps hv h1 h2 h3 h4 h5
    rw [procesar_desconocido venv fenv st sol e ps h1 h2 h3 h4 h5 hv]
    exact ⟨rfl, rfl, rfl⟩

theorem stateCode_mapping_witness :
    (procesar_sol venvAcc1 fenvSinDatos EngineState.init sol0).2 = true ∧
    (procesar_sol venvRech4 fenvSinDatos EngineState.init sol0).2 = false :=
  ⟨(stateCode_mapping.1 venvAcc1 fenvSinDatos EngineState.init sol0 1 [] rfl
      (Or.inl rfl)).1,
   (stateCode_mapping.2.2.1 venvRech4 fenvSinDatos EngineState.init sol0 4 [] rfl
      (Or.inl rfl)).1⟩

/-- C2: in a polling round and throughout the polling loop, each request
identifier lives in at most one of the working set and the
terminal-outcome record (the concatenation of their identifier lists
stays duplicate-free), and a request classified terminal in a round
lands in the outcome record and not in the next working set — exactly
one of the two. -/
theorem conjunto_trabajo_exclusivo :
    (∀ (venv : String → VerifyResponse) (fenv : String → FetchResponse)
        (l : List Sol) (st : EngineState),
      (l.map Sol.id ++ st.outcomes.map Prod.fst).Nodup →
        ((ronda venv fenv l st).1.map Sol.id
          ++ (ronda venv fenv l st).2.outcomes.map Prod.fst).Nodup) ∧
    (∀ (venv : String → VerifyResponse) (fenv : String → FetchResponse)
        (l : List Sol) (st : EngineState) (s : Sol),
      s ∈ l → keepB (venv s.id) = false →
        s.id ∈ (ronda venv fenv l st).2.outcomes.map Prod.fst ∧
        s.id ∉ (ronda venv fenv l st).1.map Sol.id) ∧
    (∀ (venv : Nat → String → VerifyResponse) (fenv : String → FetchResponse)
        (intr : Nat → Bool) (fuel i : Nat) (p : List Sol) (st : EngineState),
      (p.map Sol.id ++ st.outcomes.map Prod.fst).Nodup →
        ((bucle venv fenv intr fuel i p st).1.map Sol.id
          ++ (bucle venv fenv intr fuel i p st).2.1.outcomes.map Prod.fst).Nodup) := by
  refine ⟨fun venv fenv l st h => ronda_nodup venv fenv l st h, ?_,
    fun venv fenv intr fuel i p st h => bucle_nodup venv fenv intr fuel i p st h⟩
  intro venv fenv l st s hs hk
  obtain ⟨h1, h2, _, _, _⟩ := ronda_spec venv fenv l st
  constructor
  · rw [h2, List.map_append, salidasDe_ids]
    refine List.mem_append_right _ ?_
    refine List.mem_filter.mpr ⟨List.mem_map.mpr ⟨s, hs, rfl⟩, ?_⟩
    rw [hk]
    rfl
  · rw [h1, filtrar_ids_keep]
    intro hmem
    have hkk := (List.mem_filter.mp hmem).2
    rw [hk] at hkk
    simp at hkk

theorem conjunto_trabajo_exclusivo_witness :
    ((bucle venvAceptada fenvSinDatos sinInterrupcion max_intentos 0 [sol0]
        EngineState.init).1.map Sol.id
      ++ (bucle venvAceptada fenvSinDatos sinInterrupcion max_intentos 0 [sol0]
        EngineState.init).2.1.outcomes.map Prod.fst).Nodup :=
  conjunto_trabajo_exclusivo.2.2 venvAceptada fenvSinDatos sinInterrupcion
    max_intentos 0 [sol0] EngineState.init (by decide)

/-- C3: a verification that raises a transient fault leaves the request
in the working set with the error counter untouched, so it is retried
next round; a response with estado 4 removes the request, increments the
error counter, and — since a round never adds requests and the loop only
ever queries identifiers of its current working set — the request is
never queried again. -/
theorem transitoria_reintenta_rechazo_elimina :
    (∀ (venv : String → VerifyResponse) (fenv : String → FetchResponse)
        (st : EngineState) (sol : Sol) (m : String),
      venv sol.id = VerifyResponse.exn m →
        (procesar_sol venv fenv st sol).2 = true ∧
        (procesar_sol venv fenv st sol).1.stats.errores = st.stats.errores) ∧
    (∀ (venv : String → VerifyResponse) (fenv : String → FetchResponse)
        (st : EngineState) (sol : Sol) (ps : List String),
      venv sol.id = VerifyResponse.ok 4 ps →
        (procesar_sol venv fenv st sol).2 = false ∧
        (procesar_sol venv fenv st sol).1.stats.errores = st.stats.errores + 1 ∧
        (procesar_sol venv fenv st sol).1.outcomes
          = st.outcomes ++ [(sol.id, Outcome.rejected 4)]) ∧
    (∀ (venv : String → VerifyResponse) (fenv : String → FetchResponse)
        (l : List Sol) (st : EngineState) (s : Sol),
      s ∈ (ronda venv fenv l st).1 → s ∈ l) ∧
    (∀ (venv : Nat → String → VerifyResponse) (fenv : String → FetchResponse)
        (intr : Nat → Bool) (fuel i : Nat) (p : List Sol) (st : EngineState)
        (q : String),
      q ∈ (bucle venv fenv intr fuel i p st).2.1.verifCalls →
        q ∈ st.verifCalls ∨ q ∈ p.map Sol.id) := by
  refine ⟨?_, ?_, ?_,
    fun venv fenv intr fuel i p st q h => bucle_verif venv fenv intr fuel i p st q h⟩
  · intro venv fenv st sol m hv
    rw [procesar_excepcion venv fenv st sol m hv]
    exact ⟨rfl, rfl⟩
  · intro venv fenv st sol ps hv
    rw [procesar_estado45 venv fenv st sol 4 ps (Or.inl rfl) hv]
    exact ⟨rfl, rfl, rfl⟩
  · intro venv fenv l st s hmem
    obtain ⟨h1, _, _, _, _⟩ := ronda_spec venv fenv l st
    rw [h1] at hmem
    exact (List.mem_filter.mp hmem).1

theorem transitoria_reintenta_rechazo_elimina_witness :
    (procesar_sol venvExn fenvSinDatos EngineState.init sol0).2 = true ∧
    (procesar_sol venvRech4 fenvSinDatos EngineState.init sol0).1.stats.errores
      = EngineState.init.stats.errores + 1 :=
  ⟨(transitoria_reintenta_rechazo_elimina.1 venvExn fenvSinDatos
      EngineState.init sol0 "timeout" rfl).1,
   (transitoria_reintenta_rechazo_elimina.2.1 venvRech4 fenvSinDatos
      EngineState.init sol0 [] rfl).2.1⟩

/-- C4 counterexample: with a server that always answers estado 1 the
loop stops after `max_intentos` = 30 rounds, but the working set is NOT
empty at exit — the claim that it "becomes empty" after at most
`maxRounds` rounds is false on the code. -/
theorem limite_rondas_ceg :
    (ejecutar_descarga senvS1 venvAceptada fenvSinDatos sinInterrupcion 0 0
      EngineState.init).2.1 ≠ [] ∧
    (ejecutar_descarga senvS1 venvAceptada fenvSinDatos sinInterrupcion 0 0
      EngineState.init).2.2.2 = max_intentos := by
  constructor
  · decide
  · decide

/-- C4 amended: the polling loop executes at most `max_intentos` (30)
rounds and then terminates (the loop function is total), even if no
request ever resolves; at exit the working set may still be non-empty —
those requests are dropped. -/
theorem limite_rondas :
    (∀ (venv : Nat → String → VerifyResponse) (fenv : String → FetchResponse)
        (intr : Nat → Bool) (fuel i : Nat) (p : List Sol) (st : EngineState),
      (bucle venv fenv intr fuel i p st).2.2 ≤ i + fuel) ∧
    (∀ (senv : Nat → SubmitResponse) (venv : Nat → String → VerifyResponse)
        (fenv : String → FetchResponse) (intr : Nat → Bool) (fi ff : Nat)
        (st : EngineState),
      (ejecutar_descarga senv venv fenv intr fi ff st).2.2.2 ≤ max_intentos) := by
  refine ⟨fun venv fenv intr => bucle_intentos venv fenv intr, ?_⟩
  intro senv venv fenv intr fi ff st
  rw [ejecutar_eq]
  by_cases hs : (enviar_solicitudes senv 0 (dividir_periodos fi ff 7) ([], st)).1 = []
  · rw [if_pos hs]
    show 0 ≤ max_intentos
    omega
  · rw [if_neg hs]
    show (bucle venv fenv intr max_intentos 0 _ _).2.2 ≤ max_intentos
    have := bucle_intentos venv fenv intr max_intentos 0
      (enviar_solicitudes senv 0 (dividir_periodos fi ff 7) ([], st)).1
      (enviar_solicitudes senv 0 (dividir_periodos fi ff 7) ([], st)).2
    omega

/-- C6: a package whose zip file already exists is skipped: when every
package in the list already has a file on disk, the fetch performs no
network call, leaves the filesystem unchanged, and counts every package
as already downloaded; and after a run in which every package got a
payload, every file is on disk, so an immediate re-run performs no
network call and changes no file. -/
theorem descarga_idempotente :
    (∀ (fenv : String → FetchResponse) (st : EngineState) (ps : List String),
      (∀ p ∈ ps, p ∈ st.fs.map Prod.fst) →
        (descargar_paquetes fenv st ps).netCalls = st.netCalls ∧
        (descargar_paquetes fenv st ps).fs = st.fs ∧
        (descargar_paquetes fenv st ps).stats.paquetes_descargados
          = st.stats.paquetes_descargados + ps.length) ∧
    (∀ (fenv : String → FetchResponse) (st : EngineState) (ps : List String),
      (∀ p ∈ ps, ∃ d x, fenv p = FetchResponse.ok d x) →
        (descargar_paquetes fenv (descargar_paquetes fenv st ps) ps).netCalls
          = (descargar_paquetes fenv st ps).netCalls ∧
        (descargar_paquetes fenv (descargar_paquetes fenv st ps) ps).fs
          = (descargar_paquetes fenv st ps).fs) := by
  constructor
  · intro fenv st ps h
    obtain ⟨g1, g2, g3, _, _⟩ := descargar_presentes fenv ps st h
    exact ⟨g1, g2, g3⟩
  · intro fenv st ps h
    have hall : ∀ p ∈ ps, p ∈ (descargar_paquetes fenv st ps).fs.map Prod.fst :=
      fun p hp => descargar_escribe fenv ps st p hp (h p hp)
    obtain ⟨g1, g2, _, _, _⟩ := descargar_presentes fenv ps _ hall
    exact ⟨g1, g2⟩

theorem descarga_idempotente_witness :
    (descargar_paquetes fenvSinDatos stA ["A"]).netCalls = stA.netCalls ∧
    (descargar_paquetes fenvOkNone
        (descargar_paquetes fenvOkNone EngineState.init ["B"]) ["B"]).netCalls
      = (descargar_paquetes fenvOkNone EngineState.init ["B"]).netCalls :=
  ⟨(descarga_idempotente.1 fenvSinDatos stA ["A"] (by decide)).1,
   (descarga_idempotente.2 fenvOkNone EngineState.init ["B"]
      (fun p _ => ⟨[7], none, rfl⟩)).1⟩

/-- C7 counterexample: a fetch-level error (a download response without
payload data) is logged but does NOT increment the error counter,
contradicting the claim that every submit/verify/fetch error is
converted into an error-counter increment. -/
theorem politica_errores_ceg :
    (descargar_paquetes fenvSinDatos EngineState.init ["A"]).stats.errores
      = EngineState.init.stats.errores ∧
    (descargar_paquetes fenvSinDatos EngineState.init ["A"]).log
      = ["Sin datos - cod=5004 msg=No encontrado"] := by
  constructor
  · decide
  · decide

/-- C7 amended: every error at submit, verify, or fetch granularity is
caught (the batch continues: all sub-ranges are submitted, every pending
request is checked each round, later packages are still fetched and
written), and submit failures each increment the error counter; but
fetch errors and transient verify faults are only logged — they never
change the error counter. -/
theorem politica_errores :
    (∀ (fenv : String → FetchResponse) (st : EngineState) (ps : List String),
      (descargar_paquetes fenv st ps).stats.errores = st.stats.errores) ∧
    (∀ (fenv : String → FetchResponse) (st : EngineState) (ps : List String)
        (q : String),
      q ∈ ps → (∃ d x, fenv q = FetchResponse.ok d x) →
        q ∈ (descargar_paquetes fenv st ps).fs.map Prod.fst) ∧
    (∀ (senv : Nat → SubmitResponse) (rangos : List (Nat × Nat)) (i : Nat)
        (sols : List Sol) (st : EngineState), ∃ k,
      (enviar_solicitudes senv i rangos (sols, st)).1.length = sols.length + k ∧
      k ≤ rangos.length ∧
      (enviar_solicitudes senv i rangos (sols, st)).2.stats.solicitudes_enviadas
        = st.stats.solicitudes_enviadas + k ∧
      (enviar_solicitudes senv i rangos (sols, st)).2.stats.errores
        = st.stats.errores + (rangos.length - k)) ∧
    (∀ (venv : String → VerifyResponse) (fenv : String → FetchResponse)
        (st : EngineState) (sol : Sol) (m : String),
      venv sol.id = VerifyResponse.exn m →
        (procesar_sol venv fenv st sol).1.stats.errores = st.stats.errores ∧
        (procesar_sol venv fenv st sol).2 = true) ∧
    (∀ (venv : String → VerifyResponse) (fenv : String → FetchResponse)
        (l : List Sol) (st : EngineState),
      (ronda venv fenv l st).2.verifCalls = st.verifCalls ++ l.map Sol.id) := by
  refine ⟨?_, ?_, ?_, ?_, ?_⟩
  · intro fenv st ps
    exact (descargar_preserva fenv ps st).2.2.1
  · intro fenv st ps q hq hok
    exact descargar_escribe fenv ps st q hq hok
  · intro senv rangos i sols st
    exact enviar_cuenta senv rangos i sols st
  · intro venv fenv st sol m hv
    rw [procesar_excepcion venv fenv st sol m hv]
    exact ⟨rfl, rfl⟩
  · intro venv fenv l st
    exact (ronda_spec venv fenv l st).2.2.2.1

theorem politica_errores_witness :
    (descargar_paquetes fenvSinDatos EngineState.init ["A", "B"]).stats.errores
      = EngineState.init.stats.errores ∧
    (procesar_sol venvExn fenvSinDatos EngineState.init sol0).2 = true :=
  ⟨politica_errores.1 fenvSinDatos EngineState.init ["A", "B"],
   (politica_errores.2.2.2.1 venvExn fenvSinDatos EngineState.init sol0
      "timeout" rfl).2⟩

/-- C8: a download response without payload data leaves the filesystem
(and the counters) untouched and only logs the server's status code and
message; a response with payload whose archive introspection fails still
writes the file and counts the package, with the extracted-documents
counter unchanged. -/
theorem fetch_sin_payload (fenv : String → FetchResponse) (st : EngineState)
    (pkg cod msg : String) (d : List Nat)
    (hmem : pkg ∉ st.fs.map Prod.fst) :
    (fenv pkg = FetchResponse.sinDatos cod msg →
      (descargar_paquete_step fenv st pkg).fs = st.fs ∧
      (descargar_paquete_step fenv st pkg).log
        = st.log ++ ["Sin datos - cod=" ++ cod ++ " msg=" ++ msg] ∧
      (descargar_paquete_step fenv st pkg).stats = st.stats) ∧
    (fenv pkg = FetchResponse.ok d none →
      (descargar_paquete_step fenv st pkg).fs = st.fs ++ [(pkg, d)] ∧
      (descargar_paquete_step fenv st pkg).stats.paquetes_descargados
        = st.stats.paquetes_descargados + 1 ∧
      (descargar_paquete_step fenv st pkg).stats.xmls_extraidos
        = st.stats.xmls_extraidos) := by
  constructor
  · intro hf
    rw [descargar_step_sin_datos fenv st pkg cod msg hmem hf]
    exact ⟨rfl, rfl, rfl⟩
  · intro hf
    rw [descargar_step_ok_none fenv st pkg d hmem hf]
    exact ⟨rfl, rfl, rfl⟩

theorem fetch_sin_payload_witness :
    (descargar_paquete_step fenvSinDatos EngineState.init "A").fs
      = EngineState.init.fs ∧
    (descargar_paquete_step fenvOkNone EngineState.init "A").stats.xmls_extraidos
      = EngineState.init.stats.xmls_extraidos :=
  ⟨((fetch_sin_payload fenvSinDatos EngineState.init "A" "5004" "No encontrado"
      [] (by decide)).1 rfl).1,
   ((fetch_sin_payload fenvOkNone EngineState.init "A" "x" "y" [7]
      (by decide)).2 rfl).2.2⟩

/-- C9: when the polling loop exits with requests still pending (round
limit reached or user interrupt), `ejecutar_descarga` still reports
success, the pending requests have no terminal outcome recorded, and the
error counter accounts only for submit failures and requests classified
rejected — the dropped requests contribute nothing. -/
theorem pendientes_descartados (senv : Nat → SubmitResponse)
    (venv : Nat → String → VerifyResponse) (fenv : String → FetchResponse)
    (intr : Nat → Bool) (fi ff : Nat) (st : EngineState)
    (hout : st.outcomes = [])
    (hnd : ((enviar_solicitudes senv 0 (dividir_periodos fi ff 7)
      ([], st)).1.map Sol.id).Nodup) :
    ((ejecutar_descarga senv venv fenv intr fi ff st).2.1 ≠ [] →
      (ejecutar_descarga senv venv fenv intr fi ff st).1 = true) ∧
    (∀ s ∈ (ejecutar_descarga senv venv fenv intr fi ff st).2.1,
      s.id ∉
        (ejecutar_descarga senv venv fenv intr fi ff st).2.2.1.outcomes.map
          Prod.fst) ∧
    (ejecutar_descarga senv venv fenv intr fi ff st).2.2.1.stats.errores
      = (enviar_solicitudes senv 0 (dividir_periodos fi ff 7)
          ([], st)).2.stats.errores
        + cuentaRechazos
            (ejecutar_descarga senv venv fenv intr fi ff st).2.2.1.outcomes := by
  have ho : (enviar_solicitudes senv 0 (dividir_periodos fi ff 7)
      ([], st)).2.outcomes = [] := by
    rw [enviar_outcomes senv (dividir_periodos fi ff 7) 0 ([], st)]
    exact hout
  rw [ejecutar_eq]
  by_cases hs : (enviar_solicitudes senv 0 (dividir_periodos fi ff 7) ([], st)).1 = []
  · rw [if_pos hs]
    refine ⟨fun h => absurd rfl h, ?_, ?_⟩
    · intro s hsm
      exact absurd hsm (List.not_mem_nil s)
    · show (enviar_solicitudes senv 0 (dividir_periodos fi ff 7) ([], st)).2.stats.errores
        = (enviar_solicitudes senv 0 (dividir_periodos fi ff 7) ([], st)).2.stats.errores
        + cuentaRechazos (enviar_solicitudes senv 0 (dividir_periodos fi ff 7) ([], st)).2.outcomes
      rw [ho]
      show _ = _ + cuentaRechazos []
      simp [cuentaRechazos]
  · rw [if_neg hs]
    have hn0 : ((enviar_solicitudes senv 0 (dividir_periodos fi ff 7)
        ([], st)).1.map Sol.id
        ++ (enviar_solicitudes senv 0 (dividir_periodos fi ff 7)
          ([], st)).2.outcomes.map Prod.fst).Nodup := by
      rw [ho]
      simpa using hnd
    refine ⟨fun _ => rfl, ?_, ?_⟩
    · intro s hsm hout2
      have hn := bucle_nodup venv fenv intr max_intentos 0 _ _ hn0
      have hd := List.disjoint_of_nodup_append hn
      exact hd (List.mem_map.mpr ⟨s, hsm, rfl⟩) hout2
    · have he := bucle_errores venv fenv intr max_intentos 0
        (enviar_solicitudes senv 0 (dividir_periodos fi ff 7) ([], st)).1
        (enviar_solicitudes senv 0 (dividir_periodos fi ff 7) ([], st)).2
      rw [ho] at he
      show (bucle venv fenv intr max_intentos 0 _ _).2.1.stats.errores
        = (enviar_solicitudes senv 0 (dividir_periodos fi ff 7) ([], st)).2.stats.errores
        + cuentaRechazos (bucle venv fenv intr max_intentos 0 _ _).2.1.outcomes
      have hz : cuentaRechazos ([] : List (String × Outcome)) = 0 := rfl
      omega

theorem pendientes_descartados_witness :
    (ejecutar_descarga senvS1 venvAceptada fenvSinDatos sinInterrupcion 0 0
      EngineState.init).1 = true :=
  (pendientes_descartados senvS1 venvAceptada fenvSinDatos sinInterrupcion 0 0
    EngineState.init rfl (by decide)).1 (by decide)

end SatDescarga
